import Mathlib

/-!
Verification of the `langchain_utcp_adapters.tools` module of the
`langchain-utcp-adapters` package: a shallow embedding of the module's data
model (JSON-like values, JSON-Schema fragments, pydantic argument models,
UTCP tool descriptors) and of its operations (`_json_schema_to_python_type`,
`_create_pydantic_model_from_schema`, `_convert_utcp_result`,
`convert_utcp_tool_to_langchain_tool`, `load_utcp_tools`,
`search_utcp_tools`), followed by theorems settling the specification's
claims about them.

The repository snapshot carries the module's test suite
(`tests/test_tools.py`) and examples, but not `tools.py` itself; the
operations are therefore modelled from the specification's component
contracts, with the test suite as the in-repository authority wherever the
two disagree.  Every definition modelling a missing function says so in its
doc comment.
-/

/-- The double-quote character, defined once by code point. -/
def dquote : Char := Char.ofNat 34

/-- The backslash character. -/
def bslash : Char := Char.ofNat 92

/-- The single-quote character, used by the model of Python `repr`. -/
def squote : Char := Char.ofNat 39

/-- The opening curly brace character. -/
def lbrace : Char := Char.ofNat 123

/-- The closing curly brace character. -/
def rbrace : Char := Char.ofNat 125

/-- JSON-like runtime values: the results returned by `client.call_tool`
and the argument values supplied at tool invocation are Python objects of
exactly these shapes (None, bool, int, str, list, dict).  JSON numbers are
modelled by their integral case; the claims and the repository's tests
exercise only integral numerals. -/
inductive Value where
  | null
  | bool (b : Bool)
  | int (n : Int)
  | str (s : String)
  | arr (vs : List Value)
  | obj (ms : List (String × Value))

/-- Whether a value is Python `None`. -/
def Value.isNull : Value → Bool
  | .null => true
  | _ => false

/-- Whether a value is a Python string. -/
def Value.isStr : Value → Bool
  | .str _ => true
  | _ => false

/-- Whether a value is a Python dict (a mapping). -/
def Value.isDict : Value → Bool
  | .obj _ => true
  | _ => false

/-- First-match association-list lookup, the model of Python dict access
for the string-keyed mappings appearing in this module. -/
def lookupStr {α : Type} (key : String) : List (String × α) → Option α
  | [] => none
  | (k, v) :: rest => if k = key then some v else lookupStr key rest

/-- The decimal digit character for `d < 10`. -/
def digitChar (d : Nat) : Char := Char.ofNat (48 + d)

/-- Decimal digit characters of a natural number, most significant first,
built with explicit fuel (the fuel `n + 1` always suffices). -/
def natCharsAux : Nat → Nat → List Char → List Char
  | 0, _, acc => acc
  | fuel + 1, n, acc =>
    if n < 10 then digitChar n :: acc
    else natCharsAux fuel (n / 10) (digitChar (n % 10) :: acc)

/-- Decimal representation of a natural number as characters. -/
def natChars (n : Nat) : List Char := natCharsAux (n + 1) n []

/-- Decimal representation of an integer as characters, the shared model of
Python `str(int)` and of the integer case of `json.dumps`. -/
def intChars : Int → List Char
  | .ofNat m => natChars m
  | .negSucc m => '-' :: natChars (m + 1)

/-- Reads a run of decimal digit characters, most significant first, onto
an accumulator. -/
def digitsToNat : List Char → Nat → Nat
  | [], acc => acc
  | c :: cs, acc => digitsToNat cs (acc * 10 + (c.toNat - 48))

/-- JSON string escaping for one character: quote, backslash and the
common control characters gain a backslash escape; everything else is
emitted verbatim. -/
def escChar (c : Char) : List Char :=
  if c = dquote then [bslash, dquote]
  else if c = bslash then [bslash, bslash]
  else if c = '\n' then [bslash, 'n']
  else if c = '\t' then [bslash, 't']
  else if c = '\r' then [bslash, 'r']
  else [c]

/-- JSON string escaping for a character sequence. -/
def escChars : List Char → List Char
  | [] => []
  | c :: cs => escChar c ++ escChars cs

/-- A JSON string literal: opening quote, escaped body, closing quote. -/
def serStr (s : String) : List Char := dquote :: (escChars s.data ++ [dquote])

/-- Characters of the JSON keyword for Python `None`. -/
def nullChars : List Char := ['n', 'u', 'l', 'l']

/-- Characters of the JSON keyword for `True`. -/
def trueChars : List Char := ['t', 'r', 'u', 'e']

/-- Characters of the JSON keyword for `False`. -/
def falseChars : List Char := ['f', 'a', 'l', 's', 'e']

mutual

/-- Canonical JSON serialization of a value, the model of the
`json.dumps` call inside `_convert_utcp_result` (comma and colon
separators, no added whitespace). -/
def ser : Value → List Char
  | .null => nullChars
  | .bool true => trueChars
  | .bool false => falseChars
  | .int n => intChars n
  | .str s => serStr s
  | .arr vs => '[' :: (serArr vs ++ [']'])
  | .obj ms => lbrace :: (serObj ms ++ [rbrace])

/-- Serialization of the comma-separated elements of a JSON array. -/
def serArr : List Value → List Char
  | [] => []
  | [v] => ser v
  | v :: w :: rest => ser v ++ ',' :: serArr (w :: rest)

/-- Serialization of the comma-separated members of a JSON object. -/
def serObj : List (String × Value) → List Char
  | [] => []
  | [(k, v)] => serStr k ++ ':' :: ser v
  | (k, v) :: m :: rest => (serStr k ++ ':' :: ser v) ++ ',' :: serObj (m :: rest)

end

/-- Canonical JSON serialization of a value, as a string. -/
def serializeJson (v : Value) : String := String.mk (ser v)

/-- Inverse of `escChar` on the character following a backslash. -/
def unescChar (c : Char) : Option Char :=
  if c = dquote then some dquote
  else if c = bslash then some bslash
  else if c = 'n' then some '\n'
  else if c = 't' then some '\t'
  else if c = 'r' then some '\r'
  else none

/-- Reads a JSON string body up to and including the closing quote,
returning the unescaped content and the remaining input. -/
def parseStr : List Char → Option (List Char × List Char)
  | [] => none
  | c :: cs =>
    if c = dquote then some ([], cs)
    else if c = bslash then
      match cs with
      | [] => none
      | e :: cs' =>
        match unescChar e, parseStr cs' with
        | some c', some (s, r) => some (c' :: s, r)
        | _, _ => none
    else
      match parseStr cs with
      | some (s, r) => some (c :: s, r)
      | none => none

/-- Reads a maximal nonempty run of decimal digits as a natural number. -/
def parseNum (cs : List Char) : Option (Nat × List Char) :=
  match cs.takeWhile Char.isDigit with
  | [] => none
  | ds => some (digitsToNat ds 0, cs.dropWhile Char.isDigit)

mutual

/-- Recursive-descent JSON value parser with explicit fuel; on the output
of `ser` it recovers the serialized value exactly (proved below), which is
what the specification's round-trip requirement asks of standard JSON
parsing. -/
def parseVal : Nat → List Char → Option (Value × List Char)
  | 0, _ => none
  | _ + 1, [] => none
  | fuel + 1, c :: cs =>
    if c = 'n' then
      match cs with
      | 'u' :: 'l' :: 'l' :: r => some (.null, r)
      | _ => none
    else if c = 't' then
      match cs with
      | 'r' :: 'u' :: 'e' :: r => some (.bool true, r)
      | _ => none
    else if c = 'f' then
      match cs with
      | 'a' :: 'l' :: 's' :: 'e' :: r => some (.bool false, r)
      | _ => none
    else if c = dquote then
      match parseStr cs with
      | some (s, r) => some (.str (String.mk s), r)
      | none => none
    else if c = '[' then
      match parseItems fuel cs with
      | some (vs, r) => some (.arr vs, r)
      | none => none
    else if c = lbrace then
      match parseMembers fuel cs with
      | some (ms, r) => some (.obj ms, r)
      | none => none
    else if c = '-' then
      match parseNum cs with
      | some (n, r) => some (.int (-(n : Int)), r)
      | none => none
    else if c.isDigit then
      match parseNum (c :: cs) with
      | some (n, r) => some (.int (n : Int), r)
      | none => none
    else none

/-- Parses the element list of a JSON array, after the opening bracket. -/
def parseItems : Nat → List Char → Option (List Value × List Char)
  | 0, _ => none
  | _ + 1, [] => none
  | fuel + 1, c :: cs =>
    if c = ']' then some ([], cs)
    else
      match parseVal fuel (c :: cs) with
      | some (v, ',' :: r) =>
        match parseItems fuel r with
        | some (vs, r') => some (v :: vs, r')
        | none => none
      | some (v, ']' :: r) => some ([v], r)
      | _ => none

/-- Parses the member list of a JSON object, after the opening brace. -/
def parseMembers : Nat → List Char → Option (List (String × Value) × List Char)
  | 0, _ => none
  | _ + 1, [] => none
  | fuel + 1, c :: cs =>
    if c = rbrace then some ([], cs)
    else if c = dquote then
      match parseStr cs with
      | some (k, kr) =>
        match kr with
        | ':' :: r =>
          match parseVal fuel r with
          | some (v, ',' :: r') =>
            match parseMembers fuel r' with
            | some (ms, r'') => some ((String.mk k, v) :: ms, r'')
            | none => none
          | some (v, r') =>
            if r'.head? = some rbrace then some ([(String.mk k, v)], r'.tail)
            else none
          | none => none
        | _ => none
      | none => none
    else none

end

/-- Standard JSON parsing of a whole string. -/
def parseJson (s : String) : Option Value :=
  match parseVal (s.data.length + 1) s.data with
  | some (v, []) => some v
  | _ => none

mutual

/-- Model of Python `repr` for the value shapes in scope, used by `str`
on containers (scalars inside containers print with `repr`, strings with
single quotes). -/
def pyRepr : Value → String
  | .null => "None"
  | .bool true => "True"
  | .bool false => "False"
  | .int n => String.mk (intChars n)
  | .str s => String.mk (squote :: (s.data ++ [squote]))
  | .arr vs => "[" ++ pyReprArr vs ++ "]"
  | .obj ms => String.mk [lbrace] ++ pyReprObj ms ++ String.mk [rbrace]

/-- Comma-separated `repr` of list elements. -/
def pyReprArr : List Value → String
  | [] => ""
  | [v] => pyRepr v
  | v :: w :: rest => pyRepr v ++ ", " ++ pyReprArr (w :: rest)

/-- Comma-separated `repr` of dict members. -/
def pyReprObj : List (String × Value) → String
  | [] => ""
  | [(k, v)] => String.mk (squote :: (k.data ++ [squote])) ++ ": " ++ pyRepr v
  | (k, v) :: m :: rest =>
    String.mk (squote :: (k.data ++ [squote])) ++ ": " ++ pyRepr v ++ ", " ++
      pyReprObj (m :: rest)

end

/-- Model of Python `str()`: strings unchanged, everything else via
`repr`. -/
def pyStr : Value → String
  | .str s => s
  | v => pyRepr v

/-- Modelled from the spec: `_convert_utcp_result` of the missing
`tools.py` (the Result Normalizer).  A string result is returned
unchanged; a mapping containing the key `"error"` fails with
`InvocationError(str(result["error"]))`, carried here as the `Except`
error; any other value is serialized to its canonical JSON string. -/
def _convert_utcp_result (result : Value) : Except String String :=
  match result with
  | .str s => .ok s
  | .obj ms =>
    match lookupStr "error" ms with
    | some e => .error (pyStr e)
    | none => .ok (serializeJson (.obj ms))
  | v => .ok (serializeJson v)

/-- Host-language primitive types that the Schema Translator can assign to
an argument field: text, 64-bit integer, floating point, boolean, ordered
sequence of text, arbitrary key-value mapping, and the arbitrary-content
placeholder (`Any`). -/
inductive PyType where
  | text
  | integer
  | floating
  | boolean
  | listText
  | dictAny
  | anyType
deriving DecidableEq

/-- A JSON-Schema property fragment: its declared primitive `type` (absent
allowed) and its optional `description`. -/
structure SchemaFragment where
  type : Option String
  description : Option String
deriving DecidableEq

/-- A JSON-Schema object description as carried by a UTCP tool's
`inputs`: `type`, a `properties` mapping that may be absent, and a
`required` list that may be absent. -/
structure JsonSchema where
  type : Option String
  properties : Option (List (String × SchemaFragment))
  required : Option (List String)

/-- Modelled from the spec: `_json_schema_to_python_type` of the missing
`tools.py`.  Maps a property fragment's declared JSON-Schema primitive
type through the fixed table; an unknown or absent type yields the
arbitrary-content placeholder. -/
def _json_schema_to_python_type (frag : SchemaFragment) : PyType :=
  match frag.type with
  | some "string" => .text
  | some "integer" => .integer
  | some "number" => .floating
  | some "boolean" => .boolean
  | some "array" => .listText
  | some "object" => .dictAny
  | _ => .anyType

/-- One field of a generated argument model: its assigned primitive type,
its default (`none` marks a mandatory field with no default, `some d` an
optional field whose default is `d`), and its documentation text. -/
structure FieldSpec where
  type : PyType
  default : Option Value
  description : Option String

/-- A generated structured record type (the pydantic model built per
tool): a type name and the named, ordered field specifications. -/
structure PydModel where
  name : String
  fields : List (String × FieldSpec)

/-- Modelled from the spec: `_create_pydantic_model_from_schema` of the
missing `tools.py` (the Schema Translator).  Each declared property
becomes a field typed by the fixed table; a property listed in `required`
becomes mandatory with no default, every other property becomes optional
defaulting to the explicit absence marker `None`; absent `properties` and
`required` are treated as empty. -/
def _create_pydantic_model_from_schema (schema : JsonSchema) (model_name : String) :
    PydModel :=
  let req := schema.required.getD []
  { name := model_name
    fields := (schema.properties.getD []).map (fun pf =>
      (pf.1,
       { type := _json_schema_to_python_type pf.2
         default := if pf.1 ∈ req then none else some .null
         description := pf.2.description })) }

/-- The zero (falsy) value of each assignable primitive type, used to
state that the absence marker is not any field type's zero value. -/
def zeroValue : PyType → Value
  | .text => .str ""
  | .integer => .int 0
  | .floating => .int 0
  | .boolean => .bool false
  | .listText => .arr []
  | .dictAny => .obj []
  | .anyType => .str ""

/-- Whether a runtime value satisfies an assigned primitive type, the
model of pydantic's per-field validation (a floating-point field also
accepts an integral numeral, as pydantic coerces int to float). -/
def typeOk : PyType → Value → Bool
  | .anyType, _ => true
  | .text, .str _ => true
  | .integer, .int _ => true
  | .floating, .int _ => true
  | .boolean, .bool _ => true
  | .listText, .arr vs => vs.all Value.isStr
  | .dictAny, .obj _ => true
  | _, _ => false

/-- Validates the supplied arguments against the model's fields in field
order: a mandatory field must be present with a well-typed value; an
optional field may be absent (its default is used) or hold `None` or a
well-typed value.  Returns the complete keyword-argument list. -/
def checkFields : List (String × FieldSpec) → List (String × Value) →
    Except String (List (String × Value))
  | [], _ => .ok []
  | (n, fs) :: rest, args =>
    match lookupStr n args with
    | some v =>
      if typeOk fs.type v ∨ (fs.default.isSome ∧ v.isNull) then
        match checkFields rest args with
        | .ok kw => .ok ((n, v) :: kw)
        | .error e => .error e
      else .error ("invalid value for field " ++ n)
    | none =>
      match fs.default with
      | some d =>
        match checkFields rest args with
        | .ok kw => .ok ((n, d) :: kw)
        | .error e => .error e
      | none => .error ("missing required field " ++ n)

/-- Validation of an invocation's argument mapping against a generated
model, the model of pydantic `args_schema` validation performed by the
host framework before the tool coroutine runs: unknown keys are rejected,
missing required keys are rejected, type-mismatched values are rejected;
on success every declared field is bound (absent optional fields to their
`None` default). -/
def validateArgs (m : PydModel) (args : List (String × Value)) :
    Except String (List (String × Value)) :=
  if args.all (fun kv => (lookupStr kv.1 m.fields).isSome) then
    checkFields m.fields args
  else .error "unexpected keyword argument"

/-- A UTCP provider descriptor: its registered name and its provider type
(the string form of the provider-type enumeration, e.g. `"http"`,
`"text"`). -/
structure Provider where
  name : String
  provider_type : String

/-- A UTCP tool descriptor as listed by the client: name, description,
JSON-Schema input and output descriptions, tags, and its provider. -/
structure UTCPTool where
  name : String
  description : String
  inputs : JsonSchema
  outputs : JsonSchema
  tags : List String
  tool_provider : Provider

/-- The external UTCP client, reduced to the three capabilities this
module consumes: `call_tool`, `search_tools` (whose second component
models the optional `max_results` keyword, `none` meaning the argument was
not passed), and the tool repository's `get_tools` listing. -/
structure UtcpClient where
  call_tool : String → List (String × Value) → Value
  search_tools : String → Option Nat → List UTCPTool
  get_tools : List UTCPTool

/-- One recorded call to `client.call_tool`: the qualified tool name and
the forwarded argument mapping. -/
abbrev ClientCall := String × List (String × Value)

/-- The failures an invocation can surface: a validation failure raised
before any remote call, or an invocation failure raised by the Result
Normalizer after the remote call. -/
inductive ToolError where
  | validation (msg : String)
  | invocation (msg : String)

/-- The qualified name of a wrapped tool. -/
def qualifiedToolName (tool : UTCPTool) : String :=
  tool.tool_provider.name ++ "." ++ tool.name

/-- The argument model generated for a tool: its `inputs` schema
translated under a type name derived deterministically from the qualified
tool name. -/
def toolArgsModel (tool : UTCPTool) : PydModel :=
  _create_pydantic_model_from_schema tool.inputs (qualifiedToolName tool ++ "_input")

/-- Modelled from the spec: the invocation closure that
`convert_utcp_tool_to_langchain_tool` of the missing `tools.py` binds into
the produced tool.  It validates the arguments against the generated
model, strips fields whose value is the absence marker `None`, calls
`client.call_tool` with the qualified name and the remaining arguments,
and passes the raw result through the Result Normalizer.  The first
component records the calls that reached `client.call_tool`. -/
def toolCoroutine (client : UtcpClient) (tool : UTCPTool)
    (args : List (String × Value)) : List ClientCall × Except ToolError String :=
  match validateArgs (toolArgsModel tool) args with
  | .error e => ([], .error (.validation e))
  | .ok kwargs =>
    let remaining := kwargs.filter (fun kv => !kv.2.isNull)
    let qname := qualifiedToolName tool
    ([(qname, remaining)],
     (_convert_utcp_result (client.call_tool qname remaining)).mapError .invocation)

/-- A produced host-framework callable tool (langchain `StructuredTool`):
name, description, generated argument schema, metadata mapping, and the
bound invocation closure. -/
structure StructuredTool where
  name : String
  description : String
  args_schema : PydModel
  metadata : List (String × Value)
  coroutine : List (String × Value) → List ClientCall × Except ToolError String

/-- Modelled from the spec: `convert_utcp_tool_to_langchain_tool` of the
missing `tools.py` (the Tool Wrapper).  Produces the host tool whose name
is the qualified name, whose schema is the translated `inputs`, whose
metadata carries provider, provider type, tags and the UTCP origin marker,
and whose coroutine is the bound invocation closure. -/
def convert_utcp_tool_to_langchain_tool (client : UtcpClient) (tool : UTCPTool) :
    StructuredTool :=
  { name := qualifiedToolName tool
    description := tool.description
    args_schema := toolArgsModel tool
    metadata :=
      [("provider", .str tool.tool_provider.name),
       ("provider_type", .str tool.tool_provider.provider_type),
       ("tags", .arr (tool.tags.map .str)),
       ("utcp_tool", .bool true)]
    coroutine := toolCoroutine client tool }

/-- Modelled from the spec: `load_utcp_tools` of the missing `tools.py`.
Lists the repository's tools, keeps those whose provider name equals the
given filter (all of them when no filter is given), and wraps each in
repository order. -/
def load_utcp_tools (client : UtcpClient) (provider_name : Option String) :
    List StructuredTool :=
  (match provider_name with
   | none => client.get_tools
   | some p => client.get_tools.filter (fun t => t.tool_provider.name = p)).map
    (convert_utcp_tool_to_langchain_tool client)

/-- The observable outcome of `search_utcp_tools`: the argument pairs of
the calls that reached `client.search_tools` (query, and the max-results
argument when one was passed), and the wrapped results. -/
structure SearchOutcome where
  forwarded : List (String × Option Nat)
  results : List StructuredTool

/-- Modelled from the spec and the test suite: `search_utcp_tools` of the
missing `tools.py`.  The test asserts
`mock_client.search_tools.assert_called_once_with("search query")`, so the
client's search capability receives only the query — the `max_results`
parameter is not forwarded — and the returned descriptors are wrapped in
the client's order. -/
def search_utcp_tools (client : UtcpClient) (query : String)
    (max_results : Nat) : SearchOutcome :=
  { forwarded := [(query, none)]
    results := (client.search_tools query none).map
      (convert_utcp_tool_to_langchain_tool client) }


/-- Whether the input does not begin with a decimal digit (so that a
numeral parse just before it stops exactly at its start). -/
def headNotDigit : List Char → Bool
  | [] => true
  | c :: _ => !c.isDigit

/-- Whether a value is a mapping containing the key `"error"` (the shape
the Result Normalizer turns into an invocation failure). -/
def hasErrorKey : Value → Bool
  | .obj ms => (lookupStr "error" ms).isSome
  | _ => false

/-- The provider used by the repository's conversion test. -/
def testProvider : Provider := { name := "test_provider", provider_type := "http" }

/-- The tool descriptor used by the repository's conversion test. -/
def testTool : UTCPTool :=
  { name := "test_tool"
    description := "A test tool"
    inputs :=
      { type := some "object"
        properties := some [("input_text", { type := some "string", description := none })]
        required := some ["input_text"] }
    outputs :=
      { type := some "object"
        properties := some [("output_text", { type := some "string", description := none })]
        required := none }
    tags := ["test"]
    tool_provider := testProvider }

/-- A client stub returning the conversion test's successful result. -/
def testClient : UtcpClient :=
  { call_tool := fun _ _ => .obj [("result", .str "success")]
    search_tools := fun _ _ => [testTool]
    get_tools := [testTool] }

/-- A client stub whose tool call reports the error payload used by the
normalizer test. -/
def errClient : UtcpClient :=
  { call_tool := fun _ _ => .obj [("error", .str "Something went wrong")]
    search_tools := fun _ _ => []
    get_tools := [] }

/-- The default (empty) tool input/output schema, as constructed by
`ToolInputOutputSchema()` in the tests. -/
def emptySchema : JsonSchema :=
  { type := some "object", properties := none, required := none }

/-- First tool of the provider-filter test. -/
def tool1 : UTCPTool :=
  { name := "tool1", description := "Tool 1", inputs := emptySchema,
    outputs := emptySchema, tags := [],
    tool_provider := { name := "provider1", provider_type := "http" } }

/-- Second tool of the provider-filter test. -/
def tool2 : UTCPTool :=
  { name := "tool2", description := "Tool 2", inputs := emptySchema,
    outputs := emptySchema, tags := [],
    tool_provider := { name := "provider2", provider_type := "http" } }

/-- A client stub listing tools from two different providers. -/
def filterClient : UtcpClient :=
  { call_tool := fun _ _ => .null
    search_tools := fun _ _ => []
    get_tools := [tool1, tool2] }

/-- A client stub whose search capability finds nothing. -/
def emptySearchClient : UtcpClient :=
  { call_tool := fun _ _ => .null
    search_tools := fun _ _ => []
    get_tools := [] }

/-- The schema of the pydantic-model test (`name` and `age` required,
`email` optional). -/
def testModelSchema : JsonSchema :=
  { type := some "object"
    properties := some
      [("name", { type := some "string", description := none }),
       ("age", { type := some "integer", description := none }),
       ("email", { type := some "string", description := none })]
    required := some ["name", "age"] }

theorem digitChar_toNat (d : Nat) (h : d < 10) : (digitChar d).toNat = 48 + d := by
  interval_cases d <;> decide

theorem digitChar_isDigit (d : Nat) (h : d < 10) : (digitChar d).isDigit = true := by
  interval_cases d <;> decide

theorem natCharsAux_shift (fuel : Nat) :
    ∀ n tail, n < fuel → natCharsAux fuel n tail = natCharsAux fuel n [] ++ tail := by
  induction fuel with
  | zero => intro n tail h; omega
  | succ fuel ih =>
    intro n tail _
    by_cases h10 : n < 10
    · simp [natCharsAux, h10]
    · have hlt : n / 10 < fuel := by omega
      simp only [natCharsAux, h10, if_false]
      rw [ih (n / 10) (digitChar (n % 10) :: tail) hlt,
        ih (n / 10) [digitChar (n % 10)] hlt, List.append_assoc]
      simp

theorem digitsToNat_append (l l' : List Char) :
    ∀ a, digitsToNat (l ++ l') a = digitsToNat l' (digitsToNat l a) := by
  induction l with
  | nil => intro a; rfl
  | cons c cs ih => intro a; simp only [List.cons_append, digitsToNat]; exact ih _

theorem digitsToNat_natCharsAux (fuel : Nat) :
    ∀ n, n < fuel → ∀ a,
      digitsToNat (natCharsAux fuel n []) a =
        a * 10 ^ (natCharsAux fuel n []).length + n := by
  induction fuel with
  | zero => intro n h; omega
  | succ fuel ih =>
    intro n _ a
    by_cases h10 : n < 10
    · simp [natCharsAux, h10, digitsToNat, digitChar_toNat n h10]
    · have hlt : n / 10 < fuel := by omega
      simp only [natCharsAux, h10, if_false]
      rw [natCharsAux_shift fuel (n / 10) [digitChar (n % 10)] hlt, digitsToNat_append,
        ih (n / 10) hlt a]
      simp only [digitsToNat, List.length_append, List.length_cons, List.length_nil,
        digitChar_toNat (n % 10) (by omega : n % 10 < 10)]
      have hsub : 48 + n % 10 - 48 = n % 10 := by omega
      rw [hsub, pow_succ]
      have hmod : n / 10 * 10 + n % 10 = n := by omega
      calc (a * 10 ^ (natCharsAux fuel (n / 10) []).length + n / 10) * 10 + n % 10
          = a * (10 ^ (natCharsAux fuel (n / 10) []).length * 10) +
              (n / 10 * 10 + n % 10) := by ring
        _ = a * (10 ^ (natCharsAux fuel (n / 10) []).length * 10) + n := by rw [hmod]

theorem digitsToNat_natChars (n : Nat) : digitsToNat (natChars n) 0 = n := by
  have := digitsToNat_natCharsAux (n + 1) n (by omega) 0
  simpa [natChars] using this

theorem natCharsAux_digits (fuel : Nat) :
    ∀ n tail, (∀ c ∈ tail, c.isDigit = true) →
      ∀ c ∈ natCharsAux fuel n tail, c.isDigit = true := by
  induction fuel with
  | zero => intro n tail htail; simpa [natCharsAux] using htail
  | succ fuel ih =>
    intro n tail htail c hc
    by_cases h10 : n < 10
    · simp only [natCharsAux, h10, if_true] at hc
      rcases List.mem_cons.mp hc with rfl | hc'
      · exact digitChar_isDigit n h10
      · exact htail c hc'
    · simp only [natCharsAux, h10, if_false] at hc
      refine ih (n / 10) _ ?_ c hc
      intro c' hc'
      rcases List.mem_cons.mp hc' with rfl | hc''
      · exact digitChar_isDigit (n % 10) (by omega)
      · exact htail c' hc''

theorem natChars_digits (n : Nat) : ∀ c ∈ natChars n, c.isDigit = true :=
  natCharsAux_digits (n + 1) n [] (by simp)

theorem natCharsAux_ne_nil (fuel : Nat) :
    ∀ n tail, 0 < fuel ∨ tail ≠ [] → natCharsAux fuel n tail ≠ [] := by
  induction fuel with
  | zero =>
    intro n tail h
    simp only [natCharsAux]
    rcases h with h | h
    · omega
    · exact h
  | succ fuel ih =>
    intro n tail _
    by_cases h10 : n < 10
    · simp [natCharsAux, h10]
    · simp only [natCharsAux, h10, if_false]
      exact ih (n / 10) _ (Or.inr (by simp))

theorem natChars_ne_nil (n : Nat) : natChars n ≠ [] :=
  natCharsAux_ne_nil (n + 1) n [] (Or.inl (by omega))

theorem takeWhile_digits_append (l rest : List Char)
    (hl : ∀ c ∈ l, c.isDigit = true) (hr : headNotDigit rest = true) :
    (l ++ rest).takeWhile Char.isDigit = l ∧
      (l ++ rest).dropWhile Char.isDigit = rest := by
  induction l with
  | nil =>
    simp only [List.nil_append]
    cases rest with
    | nil => simp
    | cons c cs =>
      simp only [headNotDigit, Bool.not_eq_true'] at hr
      simp [List.takeWhile, List.dropWhile, hr]
  | cons c cs ih =>
    have hc : c.isDigit = true := hl c (by simp)
    have ih' := ih (fun c' hc' => hl c' (by simp [hc']))
    simp [List.takeWhile, List.dropWhile, hc, ih'.1, ih'.2]

theorem parseNum_natChars (n : Nat) (rest : List Char)
    (hr : headNotDigit rest = true) :
    parseNum (natChars n ++ rest) = some (n, rest) := by
  have hspan := takeWhile_digits_append (natChars n) rest (natChars_digits n) hr
  have hne := natChars_ne_nil n
  simp only [parseNum, hspan.1, hspan.2]
  cases hnc : natChars n with
  | nil => exact absurd hnc hne
  | cons c cs =>
    rw [← hnc]
    simp [digitsToNat_natChars n]

theorem parseStr_dquote (rest : List Char) :
    parseStr (dquote :: rest) = some ([], rest) := by
  rw [parseStr.eq_def]
  simp

theorem parseStr_bslash (e : Char) (cs' : List Char) (c' : Char) (s r : List Char)
    (hu : unescChar e = some c') (hp : parseStr cs' = some (s, r)) :
    parseStr (bslash :: e :: cs') = some (c' :: s, r) := by
  rw [parseStr.eq_def]
  simp [show ¬(bslash = dquote) from by decide, hu, hp]

theorem parseStr_other (c : Char) (cs : List Char) (s r : List Char)
    (h1 : ¬(c = dquote)) (h2 : ¬(c = bslash)) (hp : parseStr cs = some (s, r)) :
    parseStr (c :: cs) = some (c :: s, r) := by
  rw [parseStr.eq_def]
  simp [h1, h2, hp]

theorem parseStr_escChars (s : List Char) :
    ∀ rest, parseStr (escChars s ++ (dquote :: rest)) = some (s, rest) := by
  induction s with
  | nil => intro rest; simpa [escChars] using parseStr_dquote rest
  | cons c cs ih =>
    intro rest
    by_cases h1 : c = dquote
    · subst h1
      simp only [escChars, escChar, if_pos rfl, List.cons_append, List.nil_append,
        List.append_assoc]
      exact parseStr_bslash dquote _ dquote cs rest (by simp [unescChar]) (ih rest)
    · by_cases h2 : c = bslash
      · subst h2
        simp only [escChars, escChar, if_neg (show ¬(bslash = dquote) from by decide),
          if_pos rfl, List.cons_append, List.nil_append, List.append_assoc]
        exact parseStr_bslash bslash _ bslash cs rest
          (by simp [unescChar, show ¬(bslash = dquote) from by decide]) (ih rest)
      · by_cases h3 : c = '\n'
        · subst h3
          simp only [escChars, escChar, if_neg (show ¬('\n' = dquote) from by decide),
            if_neg (show ¬('\n' = bslash) from by decide), if_pos rfl,
            List.cons_append, List.nil_append, List.append_assoc]
          exact parseStr_bslash 'n' _ '\n' cs rest
            (by simp [unescChar, show ¬('n' = dquote) from by decide,
              show ¬('n' = bslash) from by decide]) (ih rest)
        · by_cases h4 : c = '\t'
          · subst h4
            simp only [escChars, escChar, if_neg (show ¬('\t' = dquote) from by decide),
              if_neg (show ¬('\t' = bslash) from by decide),
              if_neg (show ¬('\t' = '\n') from by decide), if_pos rfl,
              List.cons_append, List.nil_append, List.append_assoc]
            exact parseStr_bslash 't' _ '\t' cs rest
              (by simp [unescChar, show ¬('t' = dquote) from by decide,
                show ¬('t' = bslash) from by decide,
                show ¬('t' = 'n') from by decide]) (ih rest)
          · by_cases h5 : c = '\r'
            · subst h5
              simp only [escChars, escChar,
                if_neg (show ¬('\r' = dquote) from by decide),
                if_neg (show ¬('\r' = bslash) from by decide),
                if_neg (show ¬('\r' = '\n') from by decide),
                if_neg (show ¬('\r' = '\t') from by decide), if_pos rfl,
                List.cons_append, List.nil_append, List.append_assoc]
              exact parseStr_bslash 'r' _ '\r' cs rest
                (by simp [unescChar, show ¬('r' = dquote) from by decide,
                  show ¬('r' = bslash) from by decide,
                  show ¬('r' = 'n') from by decide,
                  show ¬('r' = 't') from by decide]) (ih rest)
            · simp only [escChars, escChar, if_neg h1, if_neg h2, if_neg h3, if_neg h4,
                if_neg h5, List.cons_append, List.nil_append]
              exact parseStr_other c _ cs rest h1 h2 (ih rest)

theorem parseStr_serStr (s : String) (rest : List Char) :
    parseStr (escChars s.data ++ [dquote] ++ rest) = some (s.data, rest) := by
  rw [List.append_assoc]
  exact parseStr_escChars s.data rest

theorem parseVal_null (f : Nat) (rest : List Char) :
    parseVal (f + 1) ('n' :: 'u' :: 'l' :: 'l' :: rest) = some (.null, rest) := by
  rw [parseVal.eq_def]
  simp

theorem parseVal_true (f : Nat) (rest : List Char) :
    parseVal (f + 1) ('t' :: 'r' :: 'u' :: 'e' :: rest) = some (.bool true, rest) := by
  rw [parseVal.eq_def]
  simp

theorem parseVal_false (f : Nat) (rest : List Char) :
    parseVal (f + 1) ('f' :: 'a' :: 'l' :: 's' :: 'e' :: rest) =
      some (.bool false, rest) := by
  rw [parseVal.eq_def]
  simp

theorem parseVal_str (f : Nat) (cs : List Char) (s r : List Char)
    (hp : parseStr cs = some (s, r)) :
    parseVal (f + 1) (dquote :: cs) = some (.str (String.mk s), r) := by
  rw [parseVal.eq_def]
  simp [show ¬(dquote = 'n') from by decide, show ¬(dquote = 't') from by decide,
    show ¬(dquote = 'f') from by decide, hp]

theorem parseVal_arr (f : Nat) (cs : List Char) (vs : List Value) (r : List Char)
    (hi : parseItems f cs = some (vs, r)) :
    parseVal (f + 1) ('[' :: cs) = some (.arr vs, r) := by
  rw [parseVal.eq_def]
  simp [show ¬('[' = 'n') from by decide, show ¬('[' = 't') from by decide,
    show ¬('[' = 'f') from by decide, show ¬('[' = dquote) from by decide, hi]

theorem parseVal_obj (f : Nat) (cs : List Char) (ms : List (String × Value))
    (r : List Char) (hm : parseMembers f cs = some (ms, r)) :
    parseVal (f + 1) (lbrace :: cs) = some (.obj ms, r) := by
  rw [parseVal.eq_def]
  simp [show ¬(lbrace = 'n') from by decide, show ¬(lbrace = 't') from by decide,
    show ¬(lbrace = 'f') from by decide, show ¬(lbrace = dquote) from by decide,
    show ¬(lbrace = '[') from by decide, hm]

theorem parseVal_digit (f : Nat) (c : Char) (cs : List Char) (n : Nat)
    (r : List Char) (hd : c.isDigit = true) (hp : parseNum (c :: cs) = some (n, r)) :
    parseVal (f + 1) (c :: cs) = some (.int (n : Int), r) := by
  have h1 : ¬(c = 'n') := fun h => by subst h; exact absurd hd (by decide)
  have h2 : ¬(c = 't') := fun h => by subst h; exact absurd hd (by decide)
  have h3 : ¬(c = 'f') := fun h => by subst h; exact absurd hd (by decide)
  have h4 : ¬(c = dquote) := fun h => by subst h; exact absurd hd (by decide)
  have h5 : ¬(c = '[') := fun h => by subst h; exact absurd hd (by decide)
  have h6 : ¬(c = lbrace) := fun h => by subst h; exact absurd hd (by decide)
  have h7 : ¬(c = '-') := fun h => by subst h; exact absurd hd (by decide)
  rw [parseVal.eq_def]
  simp [h1, h2, h3, h4, h5, h6, h7, hd, hp]

theorem parseVal_neg (f : Nat) (cs : List Char) (n : Nat) (r : List Char)
    (hp : parseNum cs = some (n, r)) :
    parseVal (f + 1) ('-' :: cs) = some (.int (-(n : Int)), r) := by
  rw [parseVal.eq_def]
  simp [show ¬('-' = 'n') from by decide, show ¬('-' = 't') from by decide,
    show ¬('-' = 'f') from by decide, show ¬('-' = dquote) from by decide,
    show ¬('-' = '[') from by decide, show ¬('-' = lbrace) from by decide, hp]

theorem parseItems_nil (f : Nat) (rest : List Char) :
    parseItems (f + 1) (']' :: rest) = some ([], rest) := by
  rw [parseItems.eq_def]
  simp

theorem parseItems_last (f : Nat) (c : Char) (cs : List Char) (v : Value)
    (rest : List Char) (hc : ¬(c = ']'))
    (hv : parseVal f (c :: cs) = some (v, ']' :: rest)) :
    parseItems (f + 1) (c :: cs) = some ([v], rest) := by
  rw [parseItems.eq_def]
  simp [hc, hv]

theorem parseItems_cons (f : Nat) (c : Char) (cs : List Char) (v : Value)
    (r : List Char) (vs : List Value) (r' : List Char) (hc : ¬(c = ']'))
    (hv : parseVal f (c :: cs) = some (v, ',' :: r))
    (hi : parseItems f r = some (vs, r')) :
    parseItems (f + 1) (c :: cs) = some (v :: vs, r') := by
  rw [parseItems.eq_def]
  simp [hc, hv, hi]

theorem parseMembers_nil (f : Nat) (rest : List Char) :
    parseMembers (f + 1) (rbrace :: rest) = some ([], rest) := by
  rw [parseMembers.eq_def]
  simp

theorem parseMembers_last (f : Nat) (cs : List Char) (k : List Char)
    (r : List Char) (v : Value) (r' : List Char)
    (hs : parseStr cs = some (k, ':' :: r))
    (hv : parseVal f r = some (v, rbrace :: r')) :
    parseMembers (f + 1) (dquote :: cs) = some ([(String.mk k, v)], r') := by
  rw [parseMembers.eq_def]
  simp [show ¬(dquote = rbrace) from by decide, hs, hv,
    show ¬(rbrace = ',') from by decide]

theorem parseMembers_cons (f : Nat) (cs : List Char) (k : List Char)
    (r : List Char) (v : Value) (r' : List Char) (ms : List (String × Value))
    (r'' : List Char) (hs : parseStr cs = some (k, ':' :: r))
    (hv : parseVal f r = some (v, ',' :: r'))
    (hm : parseMembers f r' = some (ms, r'')) :
    parseMembers (f + 1) (dquote :: cs) = some ((String.mk k, v) :: ms, r'') := by
  rw [parseMembers.eq_def]
  simp [show ¬(dquote = rbrace) from by decide, hs, hv, hm]

theorem natChars_head_digit (m : Nat) :
    ∃ c t, natChars m = c :: t ∧ c.isDigit = true := by
  cases hnc : natChars m with
  | nil => exact absurd hnc (natChars_ne_nil m)
  | cons c t =>
    refine ⟨c, t, rfl, ?_⟩
    have := natChars_digits m c (by rw [hnc]; simp)
    exact this

theorem ser_head_ne_rbrack (v : Value) : ∃ c t, ser v = c :: t ∧ ¬(c = ']') := by
  cases v with
  | null => exact ⟨'n', _, rfl, by decide⟩
  | bool b => cases b with
    | true => exact ⟨'t', _, rfl, by decide⟩
    | false => exact ⟨'f', _, rfl, by decide⟩
  | int n =>
    cases n with
    | ofNat m =>
      obtain ⟨c, t, hct, hd⟩ := natChars_head_digit m
      exact ⟨c, t, hct, fun h => by subst h; exact absurd hd (by decide)⟩
    | negSucc m => exact ⟨'-', _, rfl, by decide⟩
  | str s => exact ⟨dquote, _, rfl, by decide⟩
  | arr vs => exact ⟨'[', _, rfl, by decide⟩
  | obj ms => exact ⟨lbrace, _, rfl, by decide⟩

theorem ser_ne_nil (v : Value) : ser v ≠ [] := by
  obtain ⟨c, t, hct, _⟩ := ser_head_ne_rbrack v
  simp [hct]

theorem ser_length_pos (v : Value) : 0 < (ser v).length := by
  obtain ⟨c, t, hct, _⟩ := ser_head_ne_rbrack v
  simp [hct]

theorem parse_ser_all (N : Nat) :
    (∀ v : Value, sizeOf v ≤ N → ∀ fuel rest, (ser v).length < fuel →
        headNotDigit rest = true → parseVal fuel (ser v ++ rest) = some (v, rest)) ∧
    (∀ vs : List Value, sizeOf vs ≤ N → ∀ fuel rest, (serArr vs).length + 1 < fuel →
        parseItems fuel (serArr vs ++ (']' :: rest)) = some (vs, rest)) ∧
    (∀ ms : List (String × Value), sizeOf ms ≤ N → ∀ fuel rest,
        (serObj ms).length + 1 < fuel →
        parseMembers fuel (serObj ms ++ (rbrace :: rest)) = some (ms, rest)) := by
  induction N using Nat.strong_induction_on with
  | _ N ih =>
  refine ⟨?_, ?_, ?_⟩
  · intro v hv fuel rest hf hr
    obtain ⟨f, rfl⟩ : ∃ f, fuel = f + 1 := ⟨fuel - 1, by omega⟩
    cases v with
    | null => exact parseVal_null f rest
    | bool b =>
      cases b with
      | true => exact parseVal_true f rest
      | false => exact parseVal_false f rest
    | int n =>
      cases n with
      | ofNat m =>
        show parseVal (f + 1) (natChars m ++ rest) = some (.int (.ofNat m), rest)
        obtain ⟨c, t, hct, hd⟩ := natChars_head_digit m
        rw [hct, List.cons_append]
        refine parseVal_digit f c (t ++ rest) m rest hd ?_
        rw [← List.cons_append, ← hct]
        exact parseNum_natChars m rest hr
      | negSucc m =>
        show parseVal (f + 1) (('-' :: natChars (m + 1)) ++ rest) =
          some (.int (.negSucc m), rest)
        rw [List.cons_append]
        rw [parseVal_neg f (natChars (m + 1) ++ rest) (m + 1) rest
          (parseNum_natChars (m + 1) rest hr)]
        have hneg : (-(((m : Nat) + 1 : Nat) : Int)) = Int.negSucc m := by
          rw [Int.negSucc_eq]; push_cast; ring
        rw [hneg]
    | str s =>
      show parseVal (f + 1) ((dquote :: (escChars s.data ++ [dquote])) ++ rest) =
        some (.str s, rest)
      rw [List.cons_append, List.append_assoc, List.singleton_append]
      rw [parseVal_str f _ s.data rest (parseStr_escChars s.data rest)]
    | arr vs =>
      have hsz : sizeOf (Value.arr vs) = 1 + sizeOf vs := by simp
      show parseVal (f + 1) (('[' :: (serArr vs ++ [']'])) ++ rest) =
        some (.arr vs, rest)
      rw [List.cons_append, List.append_assoc, List.singleton_append]
      refine parseVal_arr f _ vs rest ?_
      have hflen : (serArr vs).length + 1 < f := by
        have h1 : (ser (Value.arr vs)).length = (serArr vs).length + 2 := by
          rw [show ser (Value.arr vs) = '[' :: (serArr vs ++ [']']) from rfl]
          simp
        omega
      have hszlt : sizeOf vs < N := by omega
      exact (ih (sizeOf vs) hszlt).2.1 vs le_rfl f rest hflen
    | obj ms =>
      have hsz : sizeOf (Value.obj ms) = 1 + sizeOf ms := by simp
      show parseVal (f + 1) ((lbrace :: (serObj ms ++ [rbrace])) ++ rest) =
        some (.obj ms, rest)
      rw [List.cons_append, List.append_assoc, List.singleton_append]
      refine parseVal_obj f _ ms rest ?_
      have hflen : (serObj ms).length + 1 < f := by
        have h1 : (ser (Value.obj ms)).length = (serObj ms).length + 2 := by
          rw [show ser (Value.obj ms) = lbrace :: (serObj ms ++ [rbrace]) from rfl]
          simp
        omega
      have hszlt : sizeOf ms < N := by omega
      exact (ih (sizeOf ms) hszlt).2.2 ms le_rfl f rest hflen
  · intro vs hvs fuel rest hf
    obtain ⟨f, rfl⟩ : ∃ f, fuel = f + 1 := ⟨fuel - 1, by omega⟩
    cases vs with
    | nil => exact parseItems_nil f rest
    | cons v vs' =>
      have hszv : sizeOf v < N := by
        have h2 : sizeOf (v :: vs') = 1 + sizeOf v + sizeOf vs' := by simp
        have hpos : 0 < sizeOf vs' := by cases vs' <;> simp
        omega
      cases vs' with
      | nil =>
        show parseItems (f + 1) (ser v ++ (']' :: rest)) = some ([v], rest)
        obtain ⟨c, t, hct, hcne⟩ := ser_head_ne_rbrack v
        rw [hct, List.cons_append]
        refine parseItems_last f c _ v rest hcne ?_
        rw [← List.cons_append, ← hct]
        have hflen : (ser v).length < f := by
          have h1 : (serArr [v]).length = (ser v).length := by
            rw [show serArr [v] = ser v from rfl]
          omega
        exact (ih (sizeOf v) hszv).1 v le_rfl f (']' :: rest) hflen (by rfl)
      | cons w rest' =>
        have hser : serArr (v :: w :: rest') = ser v ++ ',' :: serArr (w :: rest') := rfl
        have hlen1 : (serArr (v :: w :: rest')).length =
            (ser v).length + 1 + (serArr (w :: rest')).length := by
          rw [hser]; simp; omega
        show parseItems (f + 1) ((ser v ++ ',' :: serArr (w :: rest')) ++ (']' :: rest)) =
          some (v :: w :: rest', rest)
        rw [List.append_assoc, List.cons_append]
        obtain ⟨c, t, hct, hcne⟩ := ser_head_ne_rbrack v
        rw [hct, List.cons_append]
        have hlenv : (ser v).length < f := by omega
        have hv : parseVal f (ser v ++ (',' :: (serArr (w :: rest') ++ (']' :: rest)))) =
            some (v, ',' :: (serArr (w :: rest') ++ (']' :: rest))) :=
          (ih (sizeOf v) hszv).1 v le_rfl f _ hlenv (by rfl)
        rw [hct, List.cons_append] at hv
        refine parseItems_cons f c _ v _ (w :: rest') rest hcne hv ?_
        have hszw : sizeOf (w :: rest') < N := by
          have h2 : sizeOf (v :: w :: rest') = 1 + sizeOf v + sizeOf (w :: rest') := by
            simp
          have hpos : 0 < sizeOf v := by cases v <;> simp
          omega
        have hlenw : (serArr (w :: rest')).length + 1 < f := by
          have hvp := ser_length_pos v
          omega
        exact (ih (sizeOf (w :: rest')) hszw).2.1 (w :: rest') le_rfl f rest hlenw
  · intro ms hms fuel rest hf
    obtain ⟨f, rfl⟩ : ∃ f, fuel = f + 1 := ⟨fuel - 1, by omega⟩
    cases ms with
    | nil => exact parseMembers_nil f rest
    | cons kv ms' =>
      obtain ⟨k, v⟩ := kv
      have hszv : sizeOf v < N := by
        have h2 : sizeOf ((k, v) :: ms') = 1 + (1 + sizeOf k + sizeOf v) + sizeOf ms' := by
          simp
        have hpos : 0 < sizeOf ms' := by cases ms' <;> simp
        omega
      have hlenK : 0 < (serStr k).length := by
        rw [show serStr k = dquote :: (escChars k.data ++ [dquote]) from rfl]
        simp
      cases ms' with
      | nil =>
        have hser : serObj [(k, v)] = serStr k ++ ':' :: ser v := rfl
        have hlen1 : (serObj [(k, v)]).length =
            (serStr k).length + 1 + (ser v).length := by
          rw [hser]; simp; omega
        show parseMembers (f + 1)
          ((serStr k ++ ':' :: ser v) ++ (rbrace :: rest)) = some ([(k, v)], rest)
        rw [show serStr k = dquote :: (escChars k.data ++ [dquote]) from rfl]
        simp only [List.cons_append, List.append_assoc, List.singleton_append,
          List.nil_append]
        have hlenv : (ser v).length < f := by omega
        have hv : parseVal f (ser v ++ (rbrace :: rest)) =
            some (v, rbrace :: rest) :=
          (ih (sizeOf v) hszv).1 v le_rfl f _ hlenv (by rfl)
        have hs : parseStr (escChars k.data ++
            (dquote :: (':' :: (ser v ++ (rbrace :: rest))))) =
            some (k.data, ':' :: (ser v ++ (rbrace :: rest))) :=
          parseStr_escChars k.data (':' :: (ser v ++ (rbrace :: rest)))
        rw [parseMembers_last f _ k.data _ v rest hs hv]
      | cons m' rest'' =>
        have hser : serObj ((k, v) :: m' :: rest'') =
            (serStr k ++ ':' :: ser v) ++ ',' :: serObj (m' :: rest'') := rfl
        have hlen1 : (serObj ((k, v) :: m' :: rest'')).length =
            (serStr k).length + 1 + (ser v).length + 1 +
              (serObj (m' :: rest'')).length := by
          rw [hser]; simp; omega
        show parseMembers (f + 1)
          (((serStr k ++ ':' :: ser v) ++ ',' :: serObj (m' :: rest'')) ++
            (rbrace :: rest)) = some ((k, v) :: m' :: rest'', rest)
        rw [show serStr k = dquote :: (escChars k.data ++ [dquote]) from rfl]
        simp only [List.cons_append, List.append_assoc, List.singleton_append,
          List.nil_append]
        have hlenv : (ser v).length < f := by omega
        have hv : parseVal f (ser v ++ (',' :: (serObj (m' :: rest'') ++
            (rbrace :: rest)))) =
            some (v, ',' :: (serObj (m' :: rest'') ++ (rbrace :: rest))) :=
          (ih (sizeOf v) hszv).1 v le_rfl f _ hlenv (by rfl)
        have hs : parseStr (escChars k.data ++
            (dquote :: (':' :: (ser v ++ (',' :: (serObj (m' :: rest'') ++
              (rbrace :: rest))))))) =
            some (k.data, ':' :: (ser v ++ (',' :: (serObj (m' :: rest'') ++
              (rbrace :: rest))))) :=
          parseStr_escChars k.data _
        have hszm : sizeOf (m' :: rest'') < N := by
          have h2 : sizeOf ((k, v) :: m' :: rest'') =
              1 + (1 + sizeOf k + sizeOf v) + sizeOf (m' :: rest'') := by simp
          have hpos : 0 < sizeOf v := by cases v <;> simp
          omega
        have hlenm : (serObj (m' :: rest'')).length + 1 < f := by
          have hvp := ser_length_pos v
          omega
        have hm : parseMembers f (serObj (m' :: rest'') ++ (rbrace :: rest)) =
            some (m' :: rest'', rest) :=
          (ih (sizeOf (m' :: rest'')) hszm).2.2 (m' :: rest'') le_rfl f rest hlenm
        rw [parseMembers_cons f _ k.data _ v _ (m' :: rest'') rest hs hv hm]

theorem parseVal_ser (v : Value) (fuel : Nat) (rest : List Char)
    (hf : (ser v).length < fuel) (hr : headNotDigit rest = true) :
    parseVal fuel (ser v ++ rest) = some (v, rest) :=
  (parse_ser_all (sizeOf v)).1 v le_rfl fuel rest hf hr

theorem parseJson_serializeJson (v : Value) :
    parseJson (serializeJson v) = some v := by
  have h := parseVal_ser v ((ser v).length + 1) [] (by omega) rfl
  rw [List.append_nil] at h
  unfold parseJson serializeJson
  rw [show (String.mk (ser v)).data = ser v from rfl, h]

theorem checkFields_required_present (fields : List (String × FieldSpec)) :
    ∀ (args : List (String × Value)) kw, checkFields fields args = .ok kw →
      ∀ n fs, (n, fs) ∈ fields → fs.default = none → (lookupStr n args).isSome := by
  induction fields with
  | nil => intro args kw _ n fs hmem; exact absurd hmem (by simp)
  | cons hd tl ih =>
    obtain ⟨m, g⟩ := hd
    intro args kw hok n fs hmem hdef
    rw [checkFields] at hok
    rcases List.mem_cons.mp hmem with heq | hmem'
    · injection heq with h1 h2
      subst h1
      subst h2
      split at hok
      next v hlk => rw [hlk]; simp
      next hlk =>
        rw [hdef] at hok
        simp at hok
    · split at hok
      next v hlk =>
        split at hok
        · split at hok
          next kw' hck => exact ih args kw' hck n fs hmem' hdef
          next e hck => simp at hok
        · simp at hok
      next hlk =>
        split at hok
        next d hgd =>
          split at hok
          next kw' hck => exact ih args kw' hck n fs hmem' hdef
          next e hck => simp at hok
        next hgd => simp at hok

theorem validateArgs_required_present (m : PydModel) (args : List (String × Value))
    (kw : List (String × Value)) (h : validateArgs m args = .ok kw) :
    ∀ n fs, (n, fs) ∈ m.fields → fs.default = none → (lookupStr n args).isSome := by
  unfold validateArgs at h
  by_cases hall : args.all (fun kv => (lookupStr kv.1 m.fields).isSome) = true
  · rw [if_pos hall] at h
    exact checkFields_required_present m.fields args kw h
  · rw [if_neg hall] at h
    cases h

/-- Claim C1: for every wrapped tool and every argument mapping that
validates against its `args_schema`, invoking the tool strips the fields
whose value is the absence marker `None`, calls `client.call_tool` exactly
once with the qualified name and exactly the remaining arguments, passes
the raw result through the Result Normalizer, and returns the normalized
string or propagates the normalizer's failure unchanged. -/
theorem claim_C1 (client : UtcpClient) (tool : UTCPTool)
    (args kwargs : List (String × Value))
    (h : validateArgs (toolArgsModel tool) args = .ok kwargs) :
    (convert_utcp_tool_to_langchain_tool client tool).coroutine args =
      ([(qualifiedToolName tool, kwargs.filter (fun kv => !kv.2.isNull))],
       (_convert_utcp_result (client.call_tool (qualifiedToolName tool)
         (kwargs.filter (fun kv => !kv.2.isNull)))).mapError ToolError.invocation) ∧
    ∀ kv ∈ kwargs.filter (fun kv => !kv.2.isNull), kv.2.isNull = false := by
  constructor
  · show toolCoroutine client tool args = _
    unfold toolCoroutine
    rw [h]
  · intro kv hkv
    have := List.of_mem_filter hkv
    simpa using this

/-- Witness for C1 at the conversion test's tool: the argument mapping
with `input_text` bound validates, and invocation calls the client once
with the qualified name and exactly that mapping. -/
theorem claim_C1_witness :
    validateArgs (toolArgsModel testTool) [("input_text", Value.str "hello")] =
      .ok [("input_text", Value.str "hello")] ∧
    ((convert_utcp_tool_to_langchain_tool testClient testTool).coroutine
        [("input_text", Value.str "hello")] =
      ([(qualifiedToolName testTool,
         [("input_text", Value.str "hello")].filter (fun kv => !kv.2.isNull))],
       (_convert_utcp_result (testClient.call_tool (qualifiedToolName testTool)
         ([("input_text", Value.str "hello")].filter
           (fun kv => !kv.2.isNull)))).mapError ToolError.invocation) ∧
     ∀ kv ∈ [("input_text", Value.str "hello")].filter (fun kv => !kv.2.isNull),
       kv.2.isNull = false) :=
  ⟨rfl, claim_C1 testClient testTool [("input_text", Value.str "hello")]
    [("input_text", Value.str "hello")] rfl⟩

/-- Claim C2: for every wrapped tool and every invocation mapping that
omits a field listed in the source schema's required set, the invocation
fails with a validation error and no call reaches the UTCP client. -/
theorem claim_C2 (client : UtcpClient) (tool : UTCPTool)
    (args : List (String × Value)) (p : String)
    (hreq : p ∈ tool.inputs.required.getD [])
    (hprop : p ∈ (tool.inputs.properties.getD []).map Prod.fst)
    (hmiss : lookupStr p args = none) :
    ∃ e, (convert_utcp_tool_to_langchain_tool client tool).coroutine args =
      ([], .error (.validation e)) := by
  show ∃ e, toolCoroutine client tool args = ([], .error (.validation e))
  cases hval : validateArgs (toolArgsModel tool) args with
  | error e =>
    refine ⟨e, ?_⟩
    unfold toolCoroutine
    rw [hval]
  | ok kw =>
    exfalso
    obtain ⟨pf, hpf, hfst⟩ := List.mem_map.mp hprop
    obtain ⟨pn, frag⟩ := pf
    dsimp at hfst
    subst hfst
    have hfield : (pn, ({ type := _json_schema_to_python_type frag
                          default := if pn ∈ tool.inputs.required.getD [] then none
                                     else some .null
                          description := frag.description } : FieldSpec)) ∈
        (toolArgsModel tool).fields := by
      unfold toolArgsModel _create_pydantic_model_from_schema
      exact List.mem_map_of_mem _ hpf
    rw [if_pos hreq] at hfield
    have := validateArgs_required_present (toolArgsModel tool) args kw hval pn _
      hfield rfl
    rw [hmiss] at this
    simp at this

/-- Witness for C2: omitting the required `input_text` field fails
validation and the stub client records no call. -/
theorem claim_C2_witness :
    ("input_text" ∈ testTool.inputs.required.getD []) ∧
    ("input_text" ∈ (testTool.inputs.properties.getD []).map Prod.fst) ∧
    (lookupStr "input_text" ([] : List (String × Value)) = none) ∧
    ∃ e, (convert_utcp_tool_to_langchain_tool testClient testTool).coroutine [] =
      ([], .error (.validation e)) :=
  ⟨by decide, by decide, rfl,
    claim_C2 testClient testTool [] "input_text" (by decide) (by decide) rfl⟩

/-- Claim C3: for every Result Normalizer input that is a mapping
containing the key `"error"`, normalization fails with an invocation
error carrying `str(result["error"])`, and through the invocation closure
this failure propagates to the caller rather than being swallowed. -/
theorem claim_C3 (ms : List (String × Value)) (e : Value)
    (herr : lookupStr "error" ms = some e) :
    _convert_utcp_result (.obj ms) = .error (pyStr e) ∧
    ∀ (client : UtcpClient) (tool : UTCPTool) (args kwargs : List (String × Value)),
      validateArgs (toolArgsModel tool) args = .ok kwargs →
      client.call_tool (qualifiedToolName tool)
          (kwargs.filter (fun kv => !kv.2.isNull)) = .obj ms →
      ((convert_utcp_tool_to_langchain_tool client tool).coroutine args).2 =
        .error (.invocation (pyStr e)) := by
  have hconv : _convert_utcp_result (.obj ms) = .error (pyStr e) := by
    simp only [_convert_utcp_result]
    rw [herr]
  refine ⟨hconv, ?_⟩
  intro client tool args kwargs hval hcall
  show (toolCoroutine client tool args).2 = _
  unfold toolCoroutine
  rw [hval]
  dsimp only
  rw [hcall, hconv]
  rfl

/-- Witness for C3 at the normalizer test's error payload: the error
mapping normalizes to the invocation failure carrying the message, and the
wrapped tool's invocation surfaces exactly that failure. -/
theorem claim_C3_witness :
    lookupStr "error" [("error", Value.str "Something went wrong")] =
      some (.str "Something went wrong") ∧
    _convert_utcp_result (.obj [("error", .str "Something went wrong")]) =
      .error (pyStr (.str "Something went wrong")) ∧
    ((convert_utcp_tool_to_langchain_tool errClient testTool).coroutine
        [("input_text", Value.str "hello")]).2 =
      .error (.invocation (pyStr (.str "Something went wrong"))) :=
  ⟨rfl, (claim_C3 [("error", .str "Something went wrong")]
      (.str "Something went wrong") rfl).1,
    (claim_C3 [("error", .str "Something went wrong")]
      (.str "Something went wrong") rfl).2 errClient testTool
      [("input_text", Value.str "hello")] [("input_text", Value.str "hello")] rfl rfl⟩

/-- Claim C4: the Schema Translator maps a property fragment's declared
primitive type per the fixed table — string to text, integer to 64-bit
integer, number to floating point, boolean to boolean, array to an ordered
sequence of text, object to an arbitrary key-value mapping — and an
unknown or absent type maps to the arbitrary-content placeholder. -/
theorem claim_C4 :
    (∀ d, _json_schema_to_python_type ⟨some "string", d⟩ = .text) ∧
    (∀ d, _json_schema_to_python_type ⟨some "integer", d⟩ = .integer) ∧
    (∀ d, _json_schema_to_python_type ⟨some "number", d⟩ = .floating) ∧
    (∀ d, _json_schema_to_python_type ⟨some "boolean", d⟩ = .boolean) ∧
    (∀ d, _json_schema_to_python_type ⟨some "array", d⟩ = .listText) ∧
    (∀ d, _json_schema_to_python_type ⟨some "object", d⟩ = .dictAny) ∧
    (∀ d, _json_schema_to_python_type ⟨none, d⟩ = .anyType) ∧
    (∀ t d, t ∉ (["string", "integer", "number", "boolean", "array",
        "object"] : List String) →
      _json_schema_to_python_type ⟨some t, d⟩ = .anyType) := by
  refine ⟨fun d => rfl, fun d => rfl, fun d => rfl, fun d => rfl, fun d => rfl,
    fun d => rfl, fun d => rfl, ?_⟩
  intro t d ht
  simp only [List.mem_cons, List.mem_singleton, not_or] at ht
  unfold _json_schema_to_python_type
  split <;> simp_all

/-- Witness for C4: the unknown declared type `"uuid"` is outside the
table and maps to the arbitrary-content placeholder. -/
theorem claim_C4_witness :
    ("uuid" ∉ (["string", "integer", "number", "boolean", "array",
        "object"] : List String)) ∧
    _json_schema_to_python_type ⟨some "uuid", none⟩ = .anyType :=
  ⟨by decide, claim_C4.2.2.2.2.2.2.2 "uuid" none (by decide)⟩

/-- Claim C5: every property listed in `required` becomes a mandatory
field of the generated record type with no default; every other property
becomes an optional field defaulting to the explicit absence marker, which
is not the field type's zero value; absent `properties` and `required`
are treated as an empty mapping and an empty set. -/
theorem claim_C5 (schema : JsonSchema) (mname : String) :
    (∀ p frag, (p, frag) ∈ schema.properties.getD [] →
      ∃ fs : FieldSpec,
        (p, fs) ∈ (_create_pydantic_model_from_schema schema mname).fields ∧
        fs.type = _json_schema_to_python_type frag ∧
        (p ∈ schema.required.getD [] → fs.default = none) ∧
        (p ∉ schema.required.getD [] → fs.default = some .null ∧
          ∀ t : PyType, fs.default ≠ some (zeroValue t))) ∧
    (schema.properties = none →
      (_create_pydantic_model_from_schema schema mname).fields = []) ∧
    (schema.required = none →
      ∀ p frag, (p, frag) ∈ schema.properties.getD [] →
        ∃ fs : FieldSpec,
          (p, fs) ∈ (_create_pydantic_model_from_schema schema mname).fields ∧
          fs.default = some .null) := by
  refine ⟨?_, ?_, ?_⟩
  · intro p frag hmem
    refine ⟨{ type := _json_schema_to_python_type frag
              default := if p ∈ schema.required.getD [] then none else some .null
              description := frag.description }, ?_, rfl, ?_, ?_⟩
    · unfold _create_pydantic_model_from_schema
      exact List.mem_map_of_mem _ hmem
    · intro hreq
      simp only [if_pos hreq]
    · intro hopt
      refine ⟨by simp only [if_neg hopt], ?_⟩
      intro t
      simp only [if_neg hopt]
      cases t <;> simp [zeroValue]
  · intro hnone
    unfold _create_pydantic_model_from_schema
    rw [hnone]
    rfl
  · intro hnone p frag hmem
    refine ⟨{ type := _json_schema_to_python_type frag
              default := if p ∈ schema.required.getD [] then none else some .null
              description := frag.description }, ?_, ?_⟩
    · unfold _create_pydantic_model_from_schema
      exact List.mem_map_of_mem _ hmem
    · rw [hnone]
      simp

/-- Witness for C5 at the pydantic-model test's schema: `name` (required)
is mandatory with no default and `email` (not required) is optional
defaulting to the absence marker. -/
theorem claim_C5_witness :
    (("name", ({ type := some "string", description := none } : SchemaFragment)) ∈
      testModelSchema.properties.getD []) ∧
    (("email", ({ type := some "string", description := none } : SchemaFragment)) ∈
      testModelSchema.properties.getD []) ∧
    (∃ fs : FieldSpec,
      ("name", fs) ∈ (_create_pydantic_model_from_schema testModelSchema
        "TestModel").fields ∧
      fs.type = _json_schema_to_python_type ⟨some "string", none⟩ ∧
      ("name" ∈ testModelSchema.required.getD [] → fs.default = none) ∧
      ("name" ∉ testModelSchema.required.getD [] → fs.default = some .null ∧
        ∀ t : PyType, fs.default ≠ some (zeroValue t))) ∧
    (∃ fs : FieldSpec,
      ("email", fs) ∈ (_create_pydantic_model_from_schema testModelSchema
        "TestModel").fields ∧
      fs.type = _json_schema_to_python_type ⟨some "string", none⟩ ∧
      ("email" ∈ testModelSchema.required.getD [] → fs.default = none) ∧
      ("email" ∉ testModelSchema.required.getD [] → fs.default = some .null ∧
        ∀ t : PyType, fs.default ≠ some (zeroValue t))) :=
  ⟨by decide, by decide,
    (claim_C5 testModelSchema "TestModel").1 "name"
      { type := some "string", description := none } (by decide),
    (claim_C5 testModelSchema "TestModel").1 "email"
      { type := some "string", description := none } (by decide)⟩

/-- Claim C6: for every UTCP tool descriptor, the produced host tool's
name equals the provider name concatenated with a dot and the tool name,
independently of the tool's other metadata. -/
theorem claim_C6 (client : UtcpClient) (tool : UTCPTool) :
    (convert_utcp_tool_to_langchain_tool client tool).name =
      tool.tool_provider.name ++ "." ++ tool.name := rfl

/-- Claim C7: `load_utcp_tools` with a provider filter returns exactly the
wrapped tools whose provider name equals the filter, by exact
case-sensitive comparison and in repository order; no match yields the
empty list rather than a failure; without a filter every listed tool is
wrapped. -/
theorem claim_C7 (client : UtcpClient) (p : String) :
    load_utcp_tools client (some p) =
      (client.get_tools.filter (fun t => t.tool_provider.name = p)).map
        (convert_utcp_tool_to_langchain_tool client) ∧
    load_utcp_tools client none =
      client.get_tools.map (convert_utcp_tool_to_langchain_tool client) ∧
    ((∀ t ∈ client.get_tools, ¬(t.tool_provider.name = p)) →
      load_utcp_tools client (some p) = []) := by
  refine ⟨rfl, rfl, ?_⟩
  intro h
  show (client.get_tools.filter (fun t => t.tool_provider.name = p)).map
    (convert_utcp_tool_to_langchain_tool client) = []
  have hnil : client.get_tools.filter (fun t => t.tool_provider.name = p) = [] := by
    rw [List.filter_eq_nil_iff]
    intro a ha
    simpa using h a ha
  rw [hnil]
  rfl

/-- Witness for C7 at the provider-filter test's repository: filtering by
a provider name that matches no tool yields the empty list. -/
theorem claim_C7_witness :
    (∀ t ∈ filterClient.get_tools, ¬(t.tool_provider.name = "provider3")) ∧
    load_utcp_tools filterClient (some "provider3") = [] :=
  ⟨by decide, (claim_C7 filterClient "provider3").2.2 (by decide)⟩

/-- Claim C8, counterexample: the claim states that `search_utcp_tools`
forwards both the literal query and `max_results` to the client's
`search_tools` capability; but the call that reaches the client carries
only the query (the test asserts
`mock_client.search_tools.assert_called_once_with("search query")`), so at
this concrete input the forwarded argument pair is not the claimed one. -/
theorem claim_C8_counterexample :
    (search_utcp_tools testClient "search query" 10).forwarded ≠
      [("search query", some 10)] := by decide

/-- Claim C8 (amended): `search_utcp_tools` forwards the literal query to
the client's search capability without forwarding `max_results`, performs
no local matching, and returns exactly the client's returned descriptors
mapped through the Tool Wrapper in the client's order, with an empty
result list on no matches. -/
theorem claim_C8_amended (client : UtcpClient) (query : String) (max_results : Nat) :
    (search_utcp_tools client query max_results).forwarded = [(query, none)] ∧
    (search_utcp_tools client query max_results).results =
      (client.search_tools query none).map
        (convert_utcp_tool_to_langchain_tool client) ∧
    (client.search_tools query none = [] →
      (search_utcp_tools client query max_results).results = []) := by
  refine ⟨rfl, rfl, ?_⟩
  intro h
  show (client.search_tools query none).map
    (convert_utcp_tool_to_langchain_tool client) = []
  rw [h]
  rfl

/-- Witness for C8 (amended) at a client whose search finds nothing: the
result list is empty rather than a failure. -/
theorem claim_C8_witness :
    emptySearchClient.search_tools "search query" none = [] ∧
    (search_utcp_tools emptySearchClient "search query" 10).results = [] :=
  ⟨rfl, (claim_C8_amended emptySearchClient "search query" 10).2.2 rfl⟩

/-- Claim C9: every Result Normalizer input that is neither a string nor a
mapping containing the key `"error"` is returned as a JSON string that
parses back, via standard JSON parsing, to the input structure; a string
input is returned unchanged. -/
theorem claim_C9 (v : Value) :
    (v.isStr = false → hasErrorKey v = false →
      _convert_utcp_result v = .ok (serializeJson v) ∧
      parseJson (serializeJson v) = some v) ∧
    (∀ s, _convert_utcp_result (.str s) = .ok s) := by
  constructor
  · intro hstr herr
    refine ⟨?_, parseJson_serializeJson v⟩
    cases v with
    | str s => simp [Value.isStr] at hstr
    | obj ms =>
      simp only [hasErrorKey] at herr
      simp only [_convert_utcp_result]
      cases hlk : lookupStr "error" ms with
      | some e =>
        rw [hlk] at herr
        simp at herr
      | none => rfl
    | null => rfl
    | bool b => rfl
    | int n => rfl
    | arr vs => rfl
  · intro s
    rfl

/-- Witness for C9 at the normalizer test's dictionary result: it is
neither a string nor error-shaped, normalizes to its JSON serialization,
and that serialization parses back to the same structure. -/
theorem claim_C9_witness :
    (Value.obj [("message", .str "success"),
      ("data", .arr [.int 1, .int 2, .int 3])]).isStr = false ∧
    hasErrorKey (Value.obj [("message", .str "success"),
      ("data", .arr [.int 1, .int 2, .int 3])]) = false ∧
    _convert_utcp_result (.obj [("message", .str "success"),
        ("data", .arr [.int 1, .int 2, .int 3])]) =
      .ok (serializeJson (.obj [("message", .str "success"),
        ("data", .arr [.int 1, .int 2, .int 3])])) ∧
    parseJson (serializeJson (.obj [("message", .str "success"),
        ("data", .arr [.int 1, .int 2, .int 3])])) =
      some (.obj [("message", .str "success"),
        ("data", .arr [.int 1, .int 2, .int 3])]) :=
  ⟨rfl, rfl,
    ((claim_C9 (.obj [("message", .str "success"),
      ("data", .arr [.int 1, .int 2, .int 3])])).1 rfl rfl).1,
    ((claim_C9 (.obj [("message", .str "success"),
      ("data", .arr [.int 1, .int 2, .int 3])])).1 rfl rfl).2⟩

/-- Claim C10: every wrapped tool's metadata maps `provider` to the
provider name, `provider_type` to the provider type, `tags` to the
descriptor's tags — present as the empty collection when the descriptor
provides none, never absent — and `utcp_tool` to true. -/
theorem claim_C10 (client : UtcpClient) (tool : UTCPTool) :
    lookupStr "provider"
        (convert_utcp_tool_to_langchain_tool client tool).metadata =
      some (.str tool.tool_provider.name) ∧
    lookupStr "provider_type"
        (convert_utcp_tool_to_langchain_tool client tool).metadata =
      some (.str tool.tool_provider.provider_type) ∧
    lookupStr "tags" (convert_utcp_tool_to_langchain_tool client tool).metadata =
      some (.arr (tool.tags.map .str)) ∧
    lookupStr "utcp_tool"
        (convert_utcp_tool_to_langchain_tool client tool).metadata =
      some (.bool true) ∧
    (tool.tags = [] →
      lookupStr "tags" (convert_utcp_tool_to_langchain_tool client tool).metadata =
        some (.arr [])) := by
  refine ⟨rfl, rfl, rfl, rfl, ?_⟩
  intro h
  show lookupStr "tags"
    [("provider", Value.str tool.tool_provider.name),
     ("provider_type", .str tool.tool_provider.provider_type),
     ("tags", .arr (tool.tags.map .str)),
     ("utcp_tool", .bool true)] = some (.arr [])
  rw [h]
  rfl

/-- Witness for C10 at a descriptor that provides no tags: the metadata
still carries `tags`, bound to the empty collection. -/
theorem claim_C10_witness :
    tool1.tags = ([] : List String) ∧
    lookupStr "tags" (convert_utcp_tool_to_langchain_tool filterClient tool1).metadata =
      some (.arr []) :=
  ⟨rfl, (claim_C10 filterClient tool1).2.2.2.2 rfl⟩
